import Mathlib

/-!
Verification of the Job-Resume-Matcher scoring pipeline (`app.py`).

The program is embedded shallowly: Python strings are lists of code points
(naturals), pure text transforms become Lean functions, and the click handler
of the page becomes a function from its inputs (job-description text, uploaded
files, pasted text) to the produced warnings and outcome.  The numeric
vectorizer and similarity layer (scikit-learn) and the final sort (pandas) are
not part of this repository; they are modelled from the specification and the
places where that happens are marked in the doc comments.  Python's character
classes are embedded exactly for the whitespace class (a finite table) and at
their ASCII range for the word class and the case mapping (whose full Unicode
tables are not reproduced); the one statement whose truth depends on code
points outside that range carries an explicit ASCII hypothesis.
-/

namespace JobMatcher

/-- A Python `str` value, modelled as its list of code points. -/
abbrev PyStr := List Nat

/-- Code points of a Lean string literal, used to write concrete Python strings. -/
def strLit (s : String) : PyStr := s.data.map Char.toNat

/-- Embeds Python `str.lower` at its ASCII range, character-wise: ASCII
uppercase letters are moved to lowercase, every other code point is
unchanged.  The full Unicode case mapping (É→é, and occasionally
one-to-many) is not reproduced here, so results that depend on the exact
mapping are stated for ASCII inputs, where this definition coincides with
Python's. -/
def pyLower (c : Nat) : Nat := if 65 ≤ c ∧ c ≤ 90 then c + 32 else c

/-- The complete whitespace class of Python `str`: what `str.isspace`,
`str.strip` and the regex class `\s` (on `str`) accept.  CPython's table is
the finite set `09-0D`, `1C-1F`, `20`, `85` (next line), `A0` (no-break
space), `1680`, `2000-200A`, `2028`, `2029`, `202F`, `205F`, `3000`. -/
def isSpaceChar (c : Nat) : Bool :=
  (9 ≤ c && c ≤ 13) || (28 ≤ c && c ≤ 32) || c == 133 || c == 160 ||
    c == 5760 || (8192 ≤ c && c ≤ 8202) || c == 8232 || c == 8233 ||
    c == 8239 || c == 8287 || c == 12288

/-- The word class of Python's `re` module (`\w`) at its ASCII range: digits,
uppercase and lowercase letters, and the underscore.  Python's full class is
Unicode-aware (it also accepts é, 中, …); that table is not reproduced here,
so results that depend on the exact class are stated for ASCII inputs, where
this definition coincides with Python's. -/
def isWordChar (c : Nat) : Bool :=
  (48 ≤ c && c ≤ 57) || (65 ≤ c && c ≤ 90) || (97 ≤ c && c ≤ 122) || c == 95

/-- A character survives `re.sub(r'[^\w\s]', '', text)` iff it is a word or
whitespace character. -/
def keepChar (c : Nat) : Bool := isWordChar c || isSpaceChar c

/-- Embeds `re.sub(r'\s+', ' ', text)`: every maximal run of whitespace
characters is replaced by one ASCII space.  The flag records whether the
previous character belonged to a whitespace run. -/
def collapseWsAux : Bool → List Nat → List Nat
  | _, [] => []
  | true, c :: rest =>
    if isSpaceChar c then collapseWsAux true rest else c :: collapseWsAux false rest
  | false, c :: rest =>
    if isSpaceChar c then 32 :: collapseWsAux true rest else c :: collapseWsAux false rest

/-- Replace each whitespace run by a single space (`re.sub(r'\s+', ' ', ·)`). -/
def collapseWs (l : List Nat) : List Nat := collapseWsAux false l

/-- Embeds Python `str.strip()`: remove leading and trailing whitespace. -/
def pyStrip (l : PyStr) : PyStr :=
  ((l.dropWhile (fun c => isSpaceChar c)).reverse.dropWhile (fun c => isSpaceChar c)).reverse

/-- Embeds `preprocess_text` (app.py lines 13-23): lowercase the string, drop
every character that is neither a word nor a whitespace character, collapse
whitespace runs to single spaces, and strip the ends. -/
def preprocess_text (s : PyStr) : PyStr :=
  pyStrip (collapseWs ((s.map pyLower).filter keepChar))

example : preprocess_text (strLit "  Hello,   World! ") = strLit "hello world" := by decide
example : preprocess_text (strLit "_") = strLit "_" := by decide
example : preprocess_text (strLit "a\t\tB  c") = strLit "a b c" := by decide
example : preprocess_text (strLit "!!!") = [] := by decide

/-- Whether `pat` is an initial segment of `l` (used for separator matching). -/
def leadsWith : List Nat → List Nat → Bool
  | [], _ => true
  | _ :: _, [] => false
  | a :: pat, b :: l => a == b && leadsWith pat l

/-- Worker for `pySplit`.  The fuel is an upper bound on the number of scanning
steps; each step either consumes at least one character or ends the scan, so
`s.length + 1` fuel always suffices.  `cur` holds the current segment reversed. -/
def pySplitAux (sep : PyStr) : Nat → PyStr → PyStr → List PyStr
  | 0, cur, s => [cur.reverse ++ s]
  | _ + 1, cur, [] => [cur.reverse]
  | fuel + 1, cur, c :: rest =>
    if leadsWith sep (c :: rest) then
      cur.reverse :: pySplitAux sep fuel [] (List.drop sep.length (c :: rest))
    else
      pySplitAux sep fuel (c :: cur) rest

/-- Embeds Python `str.split(sep)` for a non-empty separator: split at each
non-overlapping occurrence of `sep`, scanning left to right, keeping empty
segments.  (`app.py` line 128 splits on the literal resume separator; line 105
splits file names on a dot.) -/
def pySplit (sep s : PyStr) : List PyStr :=
  if sep = [] then [s] else pySplitAux sep (s.length + 1) [] s

example : pySplit (strLit ".") (strLit "resume.txt") = [strLit "resume", strLit "txt"] := by decide
example : pySplit (strLit ".") (strLit "noext") = [strLit "noext"] := by decide
example : pySplit (strLit "aa") (strLit "aaa") = [[], strLit "a"] := by decide
example : pySplit (strLit "--") (strLit "x--y--") = [strLit "x", strLit "y", []] := by decide

/-- Whether a byte is a UTF-8 continuation byte (`0x80`-`0xBF`). -/
def isContByte (b : Nat) : Bool := 128 ≤ b && b ≤ 191

/-- Embeds Python `bytes.decode("utf-8")` (strict mode), returning `none` where
Python raises `UnicodeDecodeError`: rejects stray continuation bytes, overlong
encodings, surrogate code points and code points beyond `U+10FFFF`.  The fuel
is an upper bound on the number of decoded characters; `bs.length + 1` always
suffices since every character consumes at least one byte. -/
def utf8DecodeAux : Nat → List Nat → Option (List Nat)
  | 0, bs => if bs = [] then some [] else none
  | _ + 1, [] => some []
  | fuel + 1, b :: bs =>
    if b ≤ 127 then
      (utf8DecodeAux fuel bs).map (fun t => b :: t)
    else if 194 ≤ b && b ≤ 223 then
      match bs with
      | b1 :: bs1 =>
        if isContByte b1 then
          (utf8DecodeAux fuel bs1).map (fun t => ((b - 192) * 64 + (b1 - 128)) :: t)
        else none
      | [] => none
    else if 224 ≤ b && b ≤ 239 then
      match bs with
      | b1 :: b2 :: bs2 =>
        if isContByte b1 && isContByte b2
            && (b != 224 || 160 ≤ b1)       -- no overlong 3-byte form
            && (b != 237 || b1 ≤ 159) then  -- no surrogates U+D800-U+DFFF
          (utf8DecodeAux fuel bs2).map
            (fun t => ((b - 224) * 4096 + (b1 - 128) * 64 + (b2 - 128)) :: t)
        else none
      | _ => none
    else if 240 ≤ b && b ≤ 244 then
      match bs with
      | b1 :: b2 :: b3 :: bs3 =>
        if isContByte b1 && isContByte b2 && isContByte b3
            && (b != 240 || 144 ≤ b1)       -- no overlong 4-byte form
            && (b != 244 || b1 ≤ 143) then  -- bounded by U+10FFFF
          (utf8DecodeAux fuel bs3).map
            (fun t =>
              ((b - 240) * 262144 + (b1 - 128) * 4096 + (b2 - 128) * 64 + (b3 - 128)) :: t)
        else none
      | _ => none
    else none

/-- Decode a byte list as UTF-8 (Python `bytes.decode("utf-8")`). -/
def utf8Decode (bs : List Nat) : Option (List Nat) :=
  utf8DecodeAux (bs.length + 1) bs

example : utf8Decode (strLit "resume") = some (strLit "resume") := by decide
example : utf8Decode [255] = none := by decide
example : utf8Decode [0xC3, 0xA9] = some [233] := by decide
example : utf8Decode [0xC3] = none := by decide
example : utf8Decode [0xED, 0xA0, 0x80] = none := by decide

/-- Decimal digits of `n`, with enough fuel to cover every digit. -/
def natStrAux : Nat → Nat → List Nat
  | 0, _ => []
  | fuel + 1, n => if n < 10 then [48 + n] else natStrAux fuel (n / 10) ++ [48 + n % 10]

/-- Embeds Python's decimal rendering of a non-negative integer (as used by the
f-string that labels pasted resumes). -/
def natStr (n : Nat) : PyStr := natStrAux (n + 1) n

example : natStr 0 = strLit "0" := by decide
example : natStr 42 = strLit "42" := by decide

/-- An uploaded file as the click handler sees it: its name and raw bytes. -/
structure UFile where
  name : PyStr
  bytes : List Nat

/-- The per-item failure taxonomy of the specification (section 7). The code
only ever reports `unsupportedFormat` and `extractionFailed` warnings. -/
inductive Reason
  | unsupportedFormat
  | extractionFailed
  | emptyContent
deriving DecidableEq

/-- A per-file warning shown to the user (`st.warning` in app.py). -/
structure Warning where
  name : PyStr
  reason : Reason
deriving DecidableEq

/-- The ways a run can end without producing scored results:
`uncaughtDecodeError` models the `UnicodeDecodeError` escaping the `.txt`
branch (app.py line 109, which has no `try`), `missingReference` the error at
line 137, and `noCandidates` the error at line 139. -/
inductive RunFailure
  | uncaughtDecodeError (name : PyStr)
  | missingReference
  | noCandidates
deriving DecidableEq

/-- Result of scanning the uploaded files: the (name, content) pairs that were
accepted, the warnings emitted so far, and—when a `.txt` file held invalid
UTF-8—the name of the file whose decode raised, aborting the whole handler. -/
structure UploadScan where
  included : List (PyStr × PyStr)
  warnings : List Warning
  aborted : Option PyStr

/-- The lowercased text after the last dot of a file name
(`file_name.split('.')[-1].lower()`, app.py line 105). -/
def extOf (name : PyStr) : PyStr :=
  ((pySplit (strLit ".") name).getLastD []).map pyLower

/-- The inclusion test of app.py lines 119-123 applied to one extraction
result: a non-`None` content that is non-empty after stripping is accepted; a
`None` content yields an `extractionFailed` warning; a successfully extracted
but empty-after-strip content is silently dropped. -/
def pushContent (f : UFile) (c : Option PyStr) (r : UploadScan) : UploadScan :=
  match c with
  | some t =>
    if pyStrip t = [] then r
    else ⟨(f.name, t) :: r.included, r.warnings, r.aborted⟩
  | none => ⟨r.included, ⟨f.name, Reason.extractionFailed⟩ :: r.warnings, r.aborted⟩

/-- Embeds the upload loop (app.py lines 102-124).  `pe` and `de` stand for
the pypdf and python-docx extraction calls, which are outside this repository:
they return the extracted text or `none` where the library call raises (the
code catches those exceptions and maps them to a warning).  A `.txt` file is
decoded as UTF-8 with no exception handler, so an invalid file stops the scan
and aborts the handler. -/
def processUploads (pe de : List Nat → Option PyStr) : List UFile → UploadScan
  | [] => ⟨[], [], none⟩
  | f :: fs =>
    let ext := extOf f.name
    if ext = strLit "txt" then
      match utf8Decode f.bytes with
      | none => ⟨[], [], some f.name⟩
      | some t => pushContent f (some t) (processUploads pe de fs)
    else if ext = strLit "pdf" then
      pushContent f (pe f.bytes) (processUploads pe de fs)
    else if ext = strLit "docx" then
      pushContent f (de f.bytes) (processUploads pe de fs)
    else
      let r := processUploads pe de fs
      ⟨r.included, ⟨f.name, Reason.unsupportedFormat⟩ :: r.warnings, r.aborted⟩

/-- The literal delimiter between pasted resumes (app.py line 128). -/
def resumeSep : PyStr := strLit "---RESUME-SEPARATOR---"

/-- The synthetic label of the `i`-th retained pasted resume (0-based) when
`u` files were uploaded: `f"Pasted Resume {len(uploaded_files) + i + 1}"`
(app.py line 133). -/
def pastedName (u i : Nat) : PyStr := strLit "Pasted Resume " ++ natStr (u + i + 1)

/-- Embeds app.py lines 128-133 on the list of segments produced by the split:
strip each segment, keep the non-empty ones, and pair each with its synthetic
label. -/
def processPasted (u : Nat) (segs : List PyStr) : List (PyStr × PyStr) :=
  (((segs.map pyStrip).filter (fun t => !t.isEmpty)).enum).map
    (fun p => (pastedName u p.1, p.2))

example :
    processPasted 1 (pySplit resumeSep (strLit "one---RESUME-SEPARATOR---  ---RESUME-SEPARATOR---two")) =
      [(strLit "Pasted Resume 2", strLit "one"), (strLit "Pasted Resume 3", strLit "two")] := by
  decide

/-- A vocabulary term (a word of a normalized document). -/
abbrev Term := List Nat

/-- The words of a normalized text: the non-empty chunks between spaces.  The
normalizer only ever emits single interior spaces, so this recovers its words. -/
def wordsOf (s : PyStr) : List Term :=
  (pySplit (strLit " ") s).filter (fun w => !w.isEmpty)

/-- Modelled from the spec: the terms of one document that enter the vector
space — the words of its normalized text minus the stop words (section 4.3:
the vocabulary "excludes a fixed stop-word list"; the concrete English list
lives in scikit-learn, outside this repository, so it is the parameter
`stop`). -/
def tokensOf (stop : List Term) (s : PyStr) : List Term :=
  (wordsOf (preprocess_text s)).filter (fun t => !stop.contains t)

/-- Number of corpus documents containing the term. -/
def docFreq (corpusT : List (List Term)) (t : Term) : Nat :=
  (corpusT.filter (fun d => d.contains t)).length

/-- Modelled from the spec: smoothed inverse document frequency (section 4.3,
"term frequency … scaled by inverse document frequency across the corpus …
standard smoothing"): `log((1 + #docs)/(1 + df)) + 1`. -/
noncomputable def idf (corpusT : List (List Term)) (t : Term) : ℝ :=
  Real.log ((1 + corpusT.length) / (1 + docFreq corpusT t)) + 1

/-- Corpus-wide occurrence count of a term. -/
def corpusFreq (corpusT : List (List Term)) (t : Term) : Nat := corpusT.flatten.count t

/-- Modelled from the spec: the vocabulary — the distinct (non-stop) terms of
the corpus, capped to the 5000 most frequent (section 4.3). -/
def vocabList (corpusT : List (List Term)) : List Term :=
  (List.insertionSort (fun a b => corpusFreq corpusT b ≤ corpusFreq corpusT a)
    corpusT.flatten.dedup).take 5000

/-- The vocabulary as the index set of the vector space. -/
def vocabOf (corpusT : List (List Term)) : Finset Term := (vocabList corpusT).toFinset

/-- Modelled from the spec: the tf-idf weight of a term for a document with
token list `d` (section 4.3).  Only values at vocabulary terms are ever read. -/
noncomputable def tfidfWeight (corpusT : List (List Term)) (d : List Term) (t : Term) : ℝ :=
  (d.count t : ℝ) * idf corpusT t

/-- Dot product of two weight vectors over the vocabulary `V`. -/
noncomputable def dotV (V : Finset Term) (f g : Term → ℝ) : ℝ := ∑ t ∈ V, f t * g t

/-- Euclidean norm of a weight vector over `V`. -/
noncomputable def normV (V : Finset Term) (f : Term → ℝ) : ℝ := Real.sqrt (dotV V f f)

/-- Modelled from the spec: length-normalization to unit Euclidean norm, with
an all-zero vector left as zero rather than dividing by zero (section 4.3). -/
noncomputable def unitV (V : Finset Term) (f : Term → ℝ) : Term → ℝ :=
  if normV V f = 0 then f else fun t => f t / normV V f

/-- Modelled from the spec: a candidate's score — the cosine similarity of the
unit-normalized reference and candidate vectors (their dot product), as a
percentage (section 4.4).  `texts` are the accepted candidate texts; together
with the reference they form the corpus that fixes vocabulary and idf. -/
noncomputable def candScore (stop : List Term) (jd : PyStr) (texts : List PyStr)
    (tx : PyStr) : ℝ :=
  let corpusT := tokensOf stop jd :: texts.map (tokensOf stop)
  let V := vocabOf corpusT
  100 * dotV V (unitV V (tfidfWeight corpusT (tokensOf stop jd)))
      (unitV V (tfidfWeight corpusT (tokensOf stop tx)))

/-- One row of the results table: label, original text, original position
(the DataFrame row index before sorting) and percentage score. -/
structure ScoredResult where
  name : PyStr
  text : PyStr
  idx : Nat
  score : ℝ

/-- Build one result row per accepted candidate in input order (app.py lines
162-168), scoring each text with `f` and recording its original position. -/
noncomputable def scoreRows (f : PyStr → ℝ) : Nat → List (PyStr × PyStr) → List ScoredResult
  | _, [] => []
  | k, e :: es => ⟨e.1, e.2, k, f e.2⟩ :: scoreRows f (k + 1) es

noncomputable instance : DecidableRel (fun a b : ScoredResult => b.score ≤ a.score) :=
  fun _ _ => Real.decidableLE _ _

/-- Modelled from the spec: the ranking step — sort the rows by score
descending with a stable tie-break (section 4.4; the sort itself is the pandas
`sort_values` call at app.py line 174, outside this repository).  Insertion
with a non-strict comparison places each row after every earlier row of equal
score, which is exactly the stable descending order. -/
noncomputable def rank (l : List ScoredResult) : List ScoredResult :=
  List.insertionSort (fun a b => b.score ≤ a.score) l

/-- The stable descending order on result rows: a row precedes another when
its score is strictly higher, or the scores tie and its original position is
earlier.  A list that is pairwise in this relation is sorted by score
descending with ties in input order. -/
def RankedBefore (a b : ScoredResult) : Prop :=
  b.score < a.score ∨ (b.score = a.score ∧ a.idx < b.idx)

/-- Everything one click of "Calculate Match Scores" shows: the warnings
emitted along the way and either the ranked results or the failure that ended
the run. -/
structure RunOutput where
  warnings : List Warning
  outcome : Except RunFailure (List ScoredResult)

/-- The full candidate list of one run: accepted uploads in order, then the
retained pasted resumes (app.py builds `resume_list` in this order; the pasted
block is only consulted when it is non-empty after stripping, line 127). -/
def entriesOf (pe de : List Nat → Option PyStr) (files : List UFile) (pasted : PyStr) :
    List (PyStr × PyStr) :=
  (processUploads pe de files).included ++
    (if pyStrip pasted = [] then []
     else processPasted files.length (pySplit resumeSep pasted))

/-- Embeds the click handler (app.py lines 97-174): scan the uploads, add the
pasted resumes, check the two fatal preconditions, then score and rank.  `pe`
and `de` are the pypdf / python-docx extraction calls.  Note that the uploads
are scanned before the reference check, so a decode exception aborts the run
first, and that the reference check is Python truthiness on the raw string:
only the empty string fails it. -/
noncomputable def runPipeline (stop : List Term) (pe de : List Nat → Option PyStr)
    (jd : PyStr) (files : List UFile) (pasted : PyStr) : RunOutput :=
  let up := processUploads pe de files
  match up.aborted with
  | some nm => ⟨up.warnings, Except.error (RunFailure.uncaughtDecodeError nm)⟩
  | none =>
    let entries := entriesOf pe de files pasted
    if jd = [] then ⟨up.warnings, Except.error RunFailure.missingReference⟩
    else if entries = [] then ⟨up.warnings, Except.error RunFailure.noCandidates⟩
    else
      ⟨up.warnings,
        Except.ok (rank (scoreRows (candScore stop jd (entries.map Prod.snd)) 0 entries))⟩

example :
    (runPipeline [] (fun _ => none) (fun _ => none) (strLit "python sql") []
      (strLit "python developer")).outcome =
    Except.ok (rank (scoreRows
      (candScore [] (strLit "python sql") [strLit "python developer"]) 0
      [(pastedName 0 0, strLit "python developer")])) := rfl

example :
    (runPipeline [] (fun _ => none) (fun _ => none) (strLit "python sql") []
      (strLit "python developer")).warnings = [] := rfl

example :
    (runPipeline [] (fun _ => none) (fun _ => none) [] [] (strLit "x")).outcome =
    Except.error RunFailure.missingReference := rfl

example :
    (runPipeline [] (fun _ => none) (fun _ => none) (strLit "jd") [] (strLit " ")).outcome =
    Except.error RunFailure.noCandidates := rfl

/-! ### Facts about the normalizer -/

/-- The adjacency relation "not both whitespace" used to state that the
normalizer output has no two consecutive whitespace characters. -/
def NoTwoWs (a b : Nat) : Prop := isSpaceChar a = false ∨ isSpaceChar b = false

theorem pyLower_not_upper (c : Nat) : ¬(65 ≤ pyLower c ∧ pyLower c ≤ 90) := by
  unfold pyLower; split <;> omega

theorem pyLower_eq_self {c : Nat} (h : ¬(65 ≤ c ∧ c ≤ 90)) : pyLower c = c := by
  unfold pyLower; exact if_neg h

theorem pyLower_idem (c : Nat) : pyLower (pyLower c) = pyLower c :=
  pyLower_eq_self (pyLower_not_upper c)

/-- Every character of the collapsed list is either an inserted space or a
non-whitespace character of the input. -/
theorem mem_collapseWsAux : ∀ {l : List Nat} {b : Bool} {c : Nat},
    c ∈ collapseWsAux b l → c = 32 ∨ (c ∈ l ∧ isSpaceChar c = false)
  | [], b, c => by cases b <;> simp [collapseWsAux]
  | d :: t, b, c => by
    have step : ∀ (b2 : Bool), c ∈ collapseWsAux b2 t →
        c = 32 ∨ (c ∈ d :: t ∧ isSpaceChar c = false) :=
      fun _ h => (mem_collapseWsAux h).imp id (fun x => ⟨List.mem_cons_of_mem _ x.1, x.2⟩)
    cases b <;> simp only [collapseWsAux] <;> split
    · next hd =>
      intro h
      rcases List.mem_cons.mp h with rfl | h
      · exact Or.inl rfl
      · exact step _ h
    · next hd =>
      intro h
      rcases List.mem_cons.mp h with rfl | h
      · exact Or.inr ⟨List.mem_cons_self _ _, by simpa using hd⟩
      · exact step _ h
    · exact step _
    · next hd =>
      intro h
      rcases List.mem_cons.mp h with rfl | h
      · exact Or.inr ⟨List.mem_cons_self _ _, by simpa using hd⟩
      · exact step _ h

/-- When the flag says a whitespace run is open, the next emitted character is
not whitespace. -/
theorem collapseWsAux_true_head : ∀ {l : List Nat} {c : Nat} {t : List Nat},
    collapseWsAux true l = c :: t → isSpaceChar c = false := by
  intro l
  induction l with
  | nil => intro c t h; simp [collapseWsAux] at h
  | cons d r ih =>
    intro c t
    simp only [collapseWsAux]
    split
    · exact ih
    · next hd =>
      intro h
      injection h with h1 _
      subst h1
      simpa using hd

/-- The collapsed list never contains two consecutive whitespace characters. -/
theorem chain_collapseWsAux : ∀ (l : List Nat) (b : Bool),
    List.Chain' NoTwoWs (collapseWsAux b l)
  | [], b => by cases b <;> simp [collapseWsAux]
  | d :: t, b => by
    have htail : ∀ y ∈ (collapseWsAux true t).head?, NoTwoWs 32 y := by
      intro y hy
      cases hh : collapseWsAux true t with
      | nil => simp [hh] at hy
      | cons a u =>
        rw [hh] at hy
        simp at hy
        subst hy
        exact Or.inr (collapseWsAux_true_head hh)
    have hleft : ∀ (c : Nat), isSpaceChar c = false →
        ∀ y ∈ (collapseWsAux false t).head?, NoTwoWs c y :=
      fun c hc _ _ => Or.inl hc
    cases b <;> simp only [collapseWsAux] <;> split
    · exact List.chain'_cons'.mpr ⟨htail, chain_collapseWsAux t true⟩
    · next hd =>
      exact List.chain'_cons'.mpr ⟨hleft d (by simpa using hd), chain_collapseWsAux t false⟩
    · exact chain_collapseWsAux t true
    · next hd =>
      exact List.chain'_cons'.mpr ⟨hleft d (by simpa using hd), chain_collapseWsAux t false⟩

/-- Collapsing does nothing on a list whose spaces are single ASCII spaces
already (and, when a run is marked open, whose head is not whitespace). -/
theorem collapseWsAux_fixed : ∀ (l : List Nat) (b : Bool),
    (∀ c ∈ l, isSpaceChar c = true → c = 32) →
    List.Chain' NoTwoWs l →
    (b = true → ∀ c ∈ l.head?, isSpaceChar c = false) →
    collapseWsAux b l = l
  | [], b, _, _, _ => by cases b <;> rfl
  | d :: t, b, h32, hch, hhd => by
    have hchtail : List.Chain' NoTwoWs t := hch.tail
    have h32tail : ∀ c ∈ t, isSpaceChar c = true → c = 32 :=
      fun c hc => h32 c (List.mem_cons_of_mem _ hc)
    have hnext : isSpaceChar d = true → ∀ c ∈ t.head?, isSpaceChar c = false := by
      intro hd c hc
      have := (List.chain'_cons'.mp hch).1 c hc
      rcases this with h | h
      · rw [hd] at h; cases h
      · exact h
    cases b with
    | true =>
      have hd : isSpaceChar d = false := hhd rfl d (by simp)
      simp only [collapseWsAux, hd]
      simp [collapseWsAux_fixed t false h32tail hchtail (by intro h; cases h)]
    | false =>
      simp only [collapseWsAux]
      split
      · next hd =>
        have hd32 : d = 32 := h32 d (List.mem_cons_self _ _) hd
        rw [collapseWsAux_fixed t true h32tail hchtail (fun _ => hnext hd), hd32]
      · simp [collapseWsAux_fixed t false h32tail hchtail (by intro h; cases h)]

theorem chain_dropWhile {R : Nat → Nat → Prop} (p : Nat → Bool) :
    ∀ {l : List Nat}, List.Chain' R l → List.Chain' R (l.dropWhile p)
  | [], _ => by simp
  | c :: t, h => by
    rw [List.dropWhile_cons]
    split
    · exact chain_dropWhile p h.tail
    · exact h

theorem dropWhile_head_false (p : Nat → Bool) :
    ∀ {l : List Nat} {c : Nat} {t : List Nat}, l.dropWhile p = c :: t → p c = false
  | [], c, t => by simp
  | d :: r, c, t => by
    rw [List.dropWhile_cons]
    split
    · exact dropWhile_head_false p
    · next hd =>
      intro h
      injection h with h1 _
      subst h1
      simpa using hd

theorem dropWhile_eq_self_of_head (p : Nat → Bool) :
    ∀ {l : List Nat}, (∀ c ∈ l.head?, p c = false) → l.dropWhile p = l
  | [], _ => rfl
  | c :: t, h => by
    have hc : p c = false := h c (by simp)
    simp [List.dropWhile_cons, hc]

theorem mem_pyStrip {l : List Nat} {c : Nat} (h : c ∈ pyStrip l) : c ∈ l := by
  unfold pyStrip at h
  rw [List.mem_reverse] at h
  have h1 := (List.dropWhile_suffix (fun c => isSpaceChar c)).subset h
  rw [List.mem_reverse] at h1
  exact (List.dropWhile_suffix (fun c => isSpaceChar c)).subset h1

theorem pyStrip_head (l : List Nat) :
    ∀ c ∈ (pyStrip l).head?, isSpaceChar c = false := by
  intro c hc
  unfold pyStrip at hc
  cases hz : ((l.dropWhile (fun c => isSpaceChar c)).reverse.dropWhile
      (fun c => isSpaceChar c)).reverse with
  | nil => rw [hz] at hc; simp at hc
  | cons a u =>
    rw [hz] at hc
    simp at hc
    subst hc
    have hpre : (a :: u) <+: l.dropWhile (fun c => isSpaceChar c) := by
      rw [← hz, ← List.reverse_suffix, List.reverse_reverse]
      exact List.dropWhile_suffix _
    obtain ⟨r, hr⟩ := hpre
    simpa using dropWhile_head_false _ hr.symm

theorem pyStrip_last (l : List Nat) :
    ∀ c ∈ (pyStrip l).getLast?, isSpaceChar c = false := by
  intro c hc
  unfold pyStrip at hc
  rw [← List.head?_reverse, List.reverse_reverse] at hc
  cases hz : (l.dropWhile (fun c => isSpaceChar c)).reverse.dropWhile (fun c => isSpaceChar c) with
  | nil => rw [hz] at hc; simp at hc
  | cons a u =>
    rw [hz] at hc
    simp at hc
    subst hc
    simpa using dropWhile_head_false _ hz

theorem chain_pyStrip {l : List Nat} (h : List.Chain' NoTwoWs l) :
    List.Chain' NoTwoWs (pyStrip l) := by
  unfold pyStrip
  have hsymm : ∀ {m : List Nat}, List.Chain' NoTwoWs m → List.Chain' NoTwoWs m.reverse := by
    intro m hm
    rw [List.chain'_reverse]
    exact hm.imp (fun {a b} hab => hab.elim Or.inr Or.inl)
  exact hsymm (chain_dropWhile _ (hsymm (chain_dropWhile _ h)))

theorem pyStrip_eq_self {l : List Nat}
    (h1 : ∀ c ∈ l.head?, isSpaceChar c = false)
    (h2 : ∀ c ∈ l.getLast?, isSpaceChar c = false) : pyStrip l = l := by
  unfold pyStrip
  rw [dropWhile_eq_self_of_head _ h1]
  rw [dropWhile_eq_self_of_head _ (by rw [List.head?_reverse]; exact h2)]
  exact List.reverse_reverse l

/-- The core membership fact about normalizer output: every character is the
single space, or a lower-fixed word or whitespace character that is not an
ASCII uppercase letter. -/
theorem preprocess_mem {s : PyStr} {c : Nat} (h : c ∈ preprocess_text s) :
    c = 32 ∨ (keepChar c = true ∧ pyLower c = c ∧ isSpaceChar c = false ∧
      ¬(65 ≤ c ∧ c ≤ 90)) := by
  unfold preprocess_text collapseWs at h
  have h1 := mem_pyStrip h
  rcases mem_collapseWsAux h1 with h32 | ⟨hmem, hsp⟩
  · exact Or.inl h32
  · rcases List.mem_filter.mp hmem with ⟨hmap, hkeep⟩
    rcases List.mem_map.mp hmap with ⟨c0, _, rfl⟩
    exact Or.inr ⟨hkeep, pyLower_idem c0, hsp, pyLower_not_upper c0⟩

theorem preprocess_chain (s : PyStr) : List.Chain' NoTwoWs (preprocess_text s) :=
  chain_pyStrip (chain_collapseWsAux _ false)

theorem preprocess_head (s : PyStr) :
    ∀ c ∈ (preprocess_text s).head?, isSpaceChar c = false := pyStrip_head _

theorem preprocess_last (s : PyStr) :
    ∀ c ∈ (preprocess_text s).getLast?, isSpaceChar c = false := pyStrip_last _

/-- The normalizer is the identity on its own output. -/
theorem preprocess_fixed (s : PyStr) :
    preprocess_text (preprocess_text s) = preprocess_text s := by
  set y := preprocess_text s with hy
  have hmem := fun {c} (hc : c ∈ y) => preprocess_mem (hy ▸ hc)
  have hlow : y.map pyLower = y := by
    have : ∀ c ∈ y, pyLower c = c := by
      intro c hc
      rcases hmem hc with rfl | ⟨_, hfix, _, _⟩
      · decide
      · exact hfix
    calc y.map pyLower = y.map id := List.map_congr_left this
    _ = y := List.map_id y
  have hkeep : y.filter keepChar = y := by
    rw [List.filter_eq_self]
    intro c hc
    rcases hmem hc with rfl | ⟨hk, _, _, _⟩
    · decide
    · exact hk
  have h32 : ∀ c ∈ y, isSpaceChar c = true → c = 32 := by
    intro c hc hs
    rcases hmem hc with rfl | ⟨_, _, hns, _⟩
    · rfl
    · rw [hs] at hns; cases hns
  have hcoll : collapseWs y = y :=
    collapseWsAux_fixed y false h32 (hy ▸ preprocess_chain s) (by intro h; cases h)
  show pyStrip (collapseWs ((y.map pyLower).filter keepChar)) = y
  rw [hlow, hkeep, hcoll]
  exact pyStrip_eq_self (hy ▸ preprocess_head s) (hy ▸ preprocess_last s)

/-! ### Claims about the normalizer -/

/-- C6, counterexample: the output of the normalizer can contain an
underscore, which is neither a lowercase letter, nor a digit, nor whitespace.
The regex `[^\w\s]` keeps every `\w` character and `\w` includes `_`. -/
theorem c6_counterexample :
    95 ∈ preprocess_text (strLit "_") ∧
    ¬((97 ≤ 95 ∧ (95 : Nat) ≤ 122) ∨ (48 ≤ 95 ∧ (95 : Nat) ≤ 57) ∨
      isSpaceChar 95 = true) := by
  decide

/-- C6 (amended): for an input of ASCII characters — the range on which the
embedded word class and case mapping coincide exactly with Python's
Unicode-aware ones — the normalizer output contains only lowercase letters,
digits, underscores and whitespace; and for every input the output has no two
consecutive whitespace characters and no leading or trailing whitespace.
(A non-ASCII input can additionally leave lowercased non-ASCII word
characters such as é in the real output, which is why the alphabet part
carries the ASCII hypothesis.) -/
theorem c6_normalizer_output_shape (s : PyStr) :
    ((∀ c ∈ s, c < 128) → ∀ c ∈ preprocess_text s,
        (97 ≤ c ∧ c ≤ 122) ∨ (48 ≤ c ∧ c ≤ 57) ∨ c = 95 ∨ c = 32) ∧
    List.Chain' NoTwoWs (preprocess_text s) ∧
    (∀ c ∈ (preprocess_text s).head?, isSpaceChar c = false) ∧
    (∀ c ∈ (preprocess_text s).getLast?, isSpaceChar c = false) := by
  refine ⟨?_, preprocess_chain s, preprocess_head s, preprocess_last s⟩
  intro _ c hc
  rcases preprocess_mem hc with rfl | ⟨hk, _, hns, hnu⟩
  · right; right; right; rfl
  · have hw : isWordChar c = true := by
      simp only [keepChar, hns, Bool.or_false] at hk
      exact hk
    simp only [isWordChar, Bool.or_eq_true, Bool.and_eq_true, decide_eq_true_eq,
      beq_iff_eq] at hw
    omega

theorem c6_witness :
    ∀ c ∈ preprocess_text (strLit "Hello _World 42!"),
      (97 ≤ c ∧ c ≤ 122) ∨ (48 ≤ c ∧ c ≤ 57) ∨ c = 95 ∨ c = 32 :=
  (c6_normalizer_output_shape (strLit "Hello _World 42!")).1 (by decide)

/-- C7: the normalizer is idempotent. -/
theorem c7_normalize_idempotent (s : PyStr) :
    preprocess_text (preprocess_text s) = preprocess_text s := preprocess_fixed s

/-! ### Claims about pasted-text handling -/

/-- C10: a pasted segment that is empty or whitespace-only is discarded before
labeling: deleting it from the segment list leaves the output unchanged, so it
receives no label, no score, and does not advance the numbering of the
retained segments. -/
theorem c10_pasted_empty_segment_discarded (u : Nat) (pre post : List PyStr) (w : PyStr)
    (hw : pyStrip w = []) :
    processPasted u (pre ++ w :: post) = processPasted u (pre ++ post) := by
  simp [processPasted, List.filter_append, hw]

theorem c10_witness :
    pyStrip (strLit "  ") = [] ∧
    processPasted 2 ([strLit "alice"] ++ strLit "  " :: [strLit "bob"]) =
      processPasted 2 ([strLit "alice"] ++ [strLit "bob"]) :=
  ⟨by decide,
    c10_pasted_empty_segment_discarded 2 [strLit "alice"] [strLit "bob"] (strLit "  ")
      (by decide)⟩

/-! ### Structure of the click handler -/

theorem pyStrip_idem (l : List Nat) : pyStrip (pyStrip l) = pyStrip l :=
  pyStrip_eq_self (pyStrip_head l) (pyStrip_last l)

theorem pushContent_warning {f : UFile} {c : Option PyStr} {r : UploadScan} {w : Warning}
    (h : w ∈ (pushContent f c r).warnings) :
    w.reason = Reason.extractionFailed ∨ w ∈ r.warnings := by
  cases c with
  | some t =>
    simp only [pushContent] at h
    split at h
    · exact Or.inr h
    · exact Or.inr h
  | none =>
    simp only [pushContent] at h
    rcases List.mem_cons.mp h with rfl | h
    · exact Or.inl rfl
    · exact Or.inr h

theorem pushContent_included {f : UFile} {c : Option PyStr} {r : UploadScan}
    {p : PyStr × PyStr} (h : p ∈ (pushContent f c r).included) :
    (∃ t, c = some t ∧ p = (f.name, t) ∧ pyStrip t ≠ []) ∨ p ∈ r.included := by
  cases c with
  | some t =>
    simp only [pushContent] at h
    split at h
    · exact Or.inr h
    · rename_i hs
      rcases List.mem_cons.mp h with rfl | h
      · exact Or.inl ⟨t, rfl, rfl, hs⟩
      · exact Or.inr h
  | none =>
    simp only [pushContent] at h
    exact Or.inr h

theorem pushContent_aborted (f : UFile) (c : Option PyStr) (r : UploadScan) :
    (pushContent f c r).aborted = r.aborted := by
  cases c with
  | some t =>
    simp only [pushContent]
    split <;> rfl
  | none => rfl

/-- Every warning the upload loop emits is an unsupported-format or an
extraction-failure warning; there is no empty-content warning path. -/
theorem processUploads_warning_reason {pe de : List Nat → Option PyStr} :
    ∀ {fs : List UFile} {w : Warning}, w ∈ (processUploads pe de fs).warnings →
      w.reason = Reason.unsupportedFormat ∨ w.reason = Reason.extractionFailed
  | [], w => by simp [processUploads]
  | f :: fs, w => by
    have step : w ∈ (processUploads pe de fs).warnings →
        w.reason = Reason.unsupportedFormat ∨ w.reason = Reason.extractionFailed :=
      processUploads_warning_reason
    have push : ∀ c, w ∈ (pushContent f c (processUploads pe de fs)).warnings →
        w.reason = Reason.unsupportedFormat ∨ w.reason = Reason.extractionFailed := by
      intro c hc
      rcases pushContent_warning hc with h | h
      · exact Or.inr h
      · exact step h
    simp only [processUploads]
    by_cases h1 : extOf f.name = strLit "txt"
    · rw [if_pos h1]
      cases hdec : utf8Decode f.bytes with
      | none => intro h; simp at h
      | some t => exact push _
    · rw [if_neg h1]
      by_cases h2 : extOf f.name = strLit "pdf"
      · rw [if_pos h2]; exact push _
      · rw [if_neg h2]
        by_cases h3 : extOf f.name = strLit "docx"
        · rw [if_pos h3]; exact push _
        · rw [if_neg h3]
          intro h
          rcases List.mem_cons.mp h with rfl | h
          · exact Or.inl rfl
          · exact step h

/-- Every accepted upload has content that is non-empty after stripping. -/
theorem processUploads_included_strip {pe de : List Nat → Option PyStr} :
    ∀ {fs : List UFile} {p : PyStr × PyStr}, p ∈ (processUploads pe de fs).included →
      pyStrip p.2 ≠ []
  | [], p => by simp [processUploads]
  | f :: fs, p => by
    have step : p ∈ (processUploads pe de fs).included → pyStrip p.2 ≠ [] :=
      processUploads_included_strip
    have push : ∀ c, p ∈ (pushContent f c (processUploads pe de fs)).included →
        pyStrip p.2 ≠ [] := by
      intro c hc
      rcases pushContent_included hc with ⟨t, _, rfl, hs⟩ | h
      · exact hs
      · exact step h
    simp only [processUploads]
    by_cases h1 : extOf f.name = strLit "txt"
    · rw [if_pos h1]
      cases hdec : utf8Decode f.bytes with
      | none => intro h; simp at h
      | some t => exact push _
    · rw [if_neg h1]
      by_cases h2 : extOf f.name = strLit "pdf"
      · rw [if_pos h2]; exact push _
      · rw [if_neg h2]
        by_cases h3 : extOf f.name = strLit "docx"
        · rw [if_pos h3]; exact push _
        · rw [if_neg h3]; exact step

/-- Every retained pasted resume has content that is non-empty after
stripping (the stored text is already stripped). -/
theorem processPasted_strip {u : Nat} {segs : List PyStr} {p : PyStr × PyStr}
    (h : p ∈ processPasted u segs) : pyStrip p.2 ≠ [] := by
  unfold processPasted at h
  rcases List.mem_map.mp h with ⟨q, hq, rfl⟩
  have hq2 : q.2 ∈ (segs.map pyStrip).filter (fun t => !t.isEmpty) := by
    have he := List.enum_map_snd ((segs.map pyStrip).filter (fun t => !t.isEmpty))
    rw [← he]
    exact List.mem_map_of_mem _ hq
  rcases List.mem_filter.mp hq2 with ⟨hmem, hne⟩
  rcases List.mem_map.mp hmem with ⟨seg, _, hseg⟩
  have : pyStrip q.2 = q.2 := by rw [← hseg]; exact pyStrip_idem seg
  rw [this]
  intro hnil
  rw [hnil] at hne
  simp at hne

/-- Every candidate that reaches scoring is non-empty after stripping. -/
theorem entriesOf_strip {pe de : List Nat → Option PyStr} {files : List UFile}
    {pasted : PyStr} {p : PyStr × PyStr} (h : p ∈ entriesOf pe de files pasted) :
    pyStrip p.2 ≠ [] := by
  unfold entriesOf at h
  rcases List.mem_append.mp h with h | h
  · exact processUploads_included_strip h
  · split at h
    · simp at h
    · exact processPasted_strip h

/-- Each result row of `scoreRows` carries the name and text of one input
entry and the score of that text. -/
theorem scoreRows_mem {f : PyStr → ℝ} :
    ∀ {k : Nat} {es : List (PyStr × PyStr)} {r : ScoredResult}, r ∈ scoreRows f k es →
      ∃ e ∈ es, r.name = e.1 ∧ r.text = e.2 ∧ r.score = f e.2
  | k, [], r => by simp [scoreRows]
  | k, e :: es, r => by
    intro h
    rcases List.mem_cons.mp h with rfl | h
    · exact ⟨e, List.mem_cons_self _ _, rfl, rfl, rfl⟩
    · rcases scoreRows_mem h with ⟨e2, he2, hp⟩
      exact ⟨e2, List.mem_cons_of_mem _ he2, hp⟩

theorem runPipeline_outcome_abort (stop : List Term) (pe de : List Nat → Option PyStr)
    (jd : PyStr) (files : List UFile) (pasted : PyStr) (nm : PyStr)
    (h : (processUploads pe de files).aborted = some nm) :
    (runPipeline stop pe de jd files pasted).outcome =
      Except.error (RunFailure.uncaughtDecodeError nm) := by
  unfold runPipeline
  simp only [h]

theorem runPipeline_outcome_ready (stop : List Term) (pe de : List Nat → Option PyStr)
    (jd : PyStr) (files : List UFile) (pasted : PyStr)
    (h : (processUploads pe de files).aborted = none) :
    (runPipeline stop pe de jd files pasted).outcome =
      (if jd = [] then Except.error RunFailure.missingReference
       else if entriesOf pe de files pasted = [] then Except.error RunFailure.noCandidates
       else Except.ok (rank (scoreRows
         (candScore stop jd ((entriesOf pe de files pasted).map Prod.snd)) 0
         (entriesOf pe de files pasted)))) := by
  unfold runPipeline
  simp only [h]
  split
  · rfl
  · split <;> rfl

theorem runPipeline_warnings (stop : List Term) (pe de : List Nat → Option PyStr)
    (jd : PyStr) (files : List UFile) (pasted : PyStr) :
    (runPipeline stop pe de jd files pasted).warnings =
      (processUploads pe de files).warnings := by
  unfold runPipeline
  rcases habort : (processUploads pe de files).aborted with _ | nm <;> simp only [habort]
  · split
    · rfl
    · split <;> rfl

/-- A run that produced results produced exactly the ranked rows of the
accepted candidates. -/
theorem runPipeline_ok_shape {stop : List Term} {pe de : List Nat → Option PyStr}
    {jd : PyStr} {files : List UFile} {pasted : PyStr} {rs : List ScoredResult}
    (h : (runPipeline stop pe de jd files pasted).outcome = Except.ok rs) :
    rs = rank (scoreRows (candScore stop jd ((entriesOf pe de files pasted).map Prod.snd)) 0
      (entriesOf pe de files pasted)) := by
  rcases habort : (processUploads pe de files).aborted with _ | nm
  · rw [runPipeline_outcome_ready stop pe de jd files pasted habort] at h
    split at h
    · simp at h
    · split at h
      · simp at h
      · rw [Except.ok.injEq] at h
        exact h.symm
  · rw [runPipeline_outcome_abort stop pe de jd files pasted nm habort] at h
    simp at h

/-! ### Claims about the fatal checks and per-file failures -/

/-- C2, counterexample: a run whose reference text is a single space
(whitespace-only) does not fail with `MissingReference`: it produces scored
results, because the check at app.py line 136 is Python truthiness of the raw
string and a whitespace-only string is truthy. -/
theorem c2_counterexample :
    ∃ rs, (runPipeline [] (fun _ => none) (fun _ => none) (strLit " ") []
      (strLit "python developer")).outcome = Except.ok rs :=
  ⟨_, rfl⟩

/-- C2 (amended): provided no uploaded `.txt` file aborts the scan first, the
run fails with `MissingReference` exactly when the reference text is the empty
string; a whitespace-only reference is accepted and scored. -/
theorem c2_missing_reference_iff (stop : List Term) (pe de : List Nat → Option PyStr)
    (jd : PyStr) (files : List UFile) (pasted : PyStr)
    (h : (processUploads pe de files).aborted = none) :
    ((runPipeline stop pe de jd files pasted).outcome =
      Except.error RunFailure.missingReference) ↔ jd = [] := by
  rw [runPipeline_outcome_ready stop pe de jd files pasted h]
  by_cases hjd : jd = []
  · simp [hjd]
  · rw [if_neg hjd]
    simp only [hjd, iff_false]
    split <;> simp

theorem c2_witness :
    (processUploads (fun _ => none) (fun _ => none) ([] : List UFile)).aborted = none ∧
    (((runPipeline [] (fun _ => none) (fun _ => none) [] [] (strLit "x")).outcome =
      Except.error RunFailure.missingReference) ↔ ([] : PyStr) = []) :=
  ⟨rfl, c2_missing_reference_iff [] (fun _ => none) (fun _ => none) [] [] (strLit "x") rfl⟩

/-- C3: a `.txt` upload whose bytes are not valid UTF-8 does not fail for that
file only — the undecodable byte `0xFF` raises through the handler (there is
no `try` around the decode at app.py line 109), aborting the whole batch: the
perfectly valid second file is never scored and no results are produced. -/
theorem c3_txt_decode_aborts_batch :
    utf8Decode [255] = none ∧
    runPipeline [] (fun _ => none) (fun _ => none) (strLit "data scientist python")
      [⟨strLit "resume1.txt", [255]⟩,
       ⟨strLit "resume2.txt", strLit "experienced python developer"⟩] [] =
    ⟨[], Except.error (RunFailure.uncaughtDecodeError (strLit "resume1.txt"))⟩ :=
  ⟨rfl, rfl⟩

/-- C4, counterexample: an uploaded `.txt` file whose decoded content is
whitespace-only is excluded from scoring, but the run's warning list is empty:
the exclusion is silent, with no `EmptyContent` report (app.py lines 119-123
fall through without a warning when extraction succeeds but the text is
empty). -/
theorem c4_counterexample :
    (runPipeline [] (fun _ => none) (fun _ => none) (strLit "data scientist")
        [⟨strLit "empty.txt", [32]⟩] (strLit "python developer")).warnings = [] ∧
    ((runPipeline [] (fun _ => none) (fun _ => none) (strLit "data scientist")
        [⟨strLit "empty.txt", [32]⟩] (strLit "python developer")).outcome.map
      (List.map ScoredResult.name)) = Except.ok [strLit "Pasted Resume 2"] :=
  ⟨rfl, rfl⟩

/-- C4 (amended): candidates whose text is empty or whitespace-only are indeed
excluded before vectorization — no scored row has whitespace-only text — but
they are not reported: no warning with reason `EmptyContent` is ever
produced. -/
theorem c4_empty_candidates_silently_excluded (stop : List Term)
    (pe de : List Nat → Option PyStr) (jd : PyStr) (files : List UFile) (pasted : PyStr) :
    (∀ rs, (runPipeline stop pe de jd files pasted).outcome = Except.ok rs →
      ∀ r ∈ rs, pyStrip r.text ≠ []) ∧
    (∀ w ∈ (runPipeline stop pe de jd files pasted).warnings,
      w.reason ≠ Reason.emptyContent) := by
  constructor
  · intro rs h r hr
    rw [runPipeline_ok_shape h] at hr
    unfold rank at hr
    rw [List.mem_insertionSort] at hr
    rcases scoreRows_mem hr with ⟨e, he, _, htext, _⟩
    rw [htext]
    exact entriesOf_strip he
  · intro w hw
    rw [runPipeline_warnings stop pe de jd files pasted] at hw
    rcases processUploads_warning_reason hw with h | h <;> simp [h]

theorem c4_witness :
    pyStrip (strLit "python developer") ≠ [] ∧
    (∀ w ∈ (runPipeline [] (fun _ => none) (fun _ => none) (strLit "data scientist")
        [⟨strLit "empty.txt", [32]⟩] (strLit "python developer")).warnings,
      w.reason ≠ Reason.emptyContent) := by
  constructor
  · exact (c4_empty_candidates_silently_excluded [] (fun _ => none) (fun _ => none)
      (strLit "data scientist") [⟨strLit "empty.txt", [32]⟩] (strLit "python developer")).1
      (rank (scoreRows
        (candScore [] (strLit "data scientist") [strLit "python developer"]) 0
        [(strLit "Pasted Resume 2", strLit "python developer")])) rfl
      ⟨strLit "Pasted Resume 2", strLit "python developer", 0,
        candScore [] (strLit "data scientist") [strLit "python developer"]
          (strLit "python developer")⟩
      (List.mem_cons_self _ _)
  · exact (c4_empty_candidates_silently_excluded [] (fun _ => none) (fun _ => none)
      (strLit "data scientist") [⟨strLit "empty.txt", [32]⟩] (strLit "python developer")).2

/-! ### Facts about the vector space -/

theorem dotV_nonneg {V : Finset Term} {f g : Term → ℝ}
    (hf : ∀ t, 0 ≤ f t) (hg : ∀ t, 0 ≤ g t) : 0 ≤ dotV V f g :=
  Finset.sum_nonneg (fun t _ => mul_nonneg (hf t) (hg t))

theorem dotV_self_nonneg (V : Finset Term) (f : Term → ℝ) : 0 ≤ dotV V f f :=
  Finset.sum_nonneg (fun t _ => mul_self_nonneg (f t))

theorem normV_nonneg (V : Finset Term) (f : Term → ℝ) : 0 ≤ normV V f :=
  Real.sqrt_nonneg _

theorem normV_mul_self (V : Finset Term) (f : Term → ℝ) :
    normV V f * normV V f = dotV V f f :=
  Real.mul_self_sqrt (dotV_self_nonneg V f)

/-- Cauchy-Schwarz for the vocabulary dot product. -/
theorem dotV_le_norm_mul_norm (V : Finset Term) (f g : Term → ℝ) :
    dotV V f g ≤ normV V f * normV V g := by
  have hff : dotV V f f = ∑ t ∈ V, f t ^ 2 :=
    Finset.sum_congr rfl (fun t _ => (pow_two (f t)).symm)
  have hgg : dotV V g g = ∑ t ∈ V, g t ^ 2 :=
    Finset.sum_congr rfl (fun t _ => (pow_two (g t)).symm)
  have h2 : (dotV V f g) ^ 2 ≤ (∑ t ∈ V, f t ^ 2) * ∑ t ∈ V, g t ^ 2 :=
    Finset.sum_mul_sq_le_sq_mul_sq V f g
  calc dotV V f g ≤ |dotV V f g| := le_abs_self _
  _ = Real.sqrt ((dotV V f g) ^ 2) := (Real.sqrt_sq_eq_abs _).symm
  _ ≤ Real.sqrt ((∑ t ∈ V, f t ^ 2) * ∑ t ∈ V, g t ^ 2) := Real.sqrt_le_sqrt h2
  _ = Real.sqrt (dotV V f f * dotV V g g) := by rw [hff, hgg]
  _ = normV V f * normV V g := Real.sqrt_mul (dotV_self_nonneg V f) _

theorem dotV_zero_of_left {V : Finset Term} {f g : Term → ℝ}
    (hf : ∀ t ∈ V, f t = 0) : dotV V f g = 0 :=
  Finset.sum_eq_zero (fun t ht => by rw [hf t ht, zero_mul])

theorem dotV_zero_of_right {V : Finset Term} {f g : Term → ℝ}
    (hg : ∀ t ∈ V, g t = 0) : dotV V f g = 0 :=
  Finset.sum_eq_zero (fun t ht => by rw [hg t ht, mul_zero])

theorem entries_zero_of_normV_zero {V : Finset Term} {f : Term → ℝ}
    (h : normV V f = 0) : ∀ t ∈ V, f t = 0 := by
  have hd : dotV V f f = 0 := (Real.sqrt_eq_zero (dotV_self_nonneg V f)).mp h
  intro t ht
  exact mul_self_eq_zero.mp
    ((Finset.sum_eq_zero_iff_of_nonneg (fun t _ => mul_self_nonneg (f t))).mp hd t ht)

theorem normV_zero_fun {V : Finset Term} {f : Term → ℝ}
    (h : ∀ t ∈ V, f t = 0) : normV V f = 0 := by
  unfold normV
  rw [dotV_zero_of_left h, Real.sqrt_zero]

theorem unitV_nonneg {V : Finset Term} {f : Term → ℝ} (hf : ∀ t, 0 ≤ f t) :
    ∀ t, 0 ≤ unitV V f t := by
  intro t
  unfold unitV
  split
  · exact hf t
  · exact div_nonneg (hf t) (normV_nonneg V f)

theorem unitV_zero {V : Finset Term} {f : Term → ℝ} (h : normV V f = 0) :
    ∀ t ∈ V, unitV V f t = 0 := by
  unfold unitV
  rw [if_pos h]
  exact entries_zero_of_normV_zero h

/-- A vector with non-zero norm normalizes to a unit vector. -/
theorem dotV_unitV_self {V : Finset Term} {f : Term → ℝ} (h : normV V f ≠ 0) :
    dotV V (unitV V f) (unitV V f) = 1 := by
  have hd : dotV V f f ≠ 0 := by
    intro h0
    exact h (by unfold normV; rw [h0, Real.sqrt_zero])
  unfold unitV
  rw [if_neg h]
  have hdiv : dotV V (fun t => f t / normV V f) (fun t => f t / normV V f) =
      dotV V f f / (normV V f * normV V f) := by
    unfold dotV
    rw [Finset.sum_div]
    exact Finset.sum_congr rfl (fun t _ => div_mul_div_comm (f t) _ (f t) _)
  rw [hdiv, normV_mul_self]
  exact div_self hd

theorem normV_unitV_le_one (V : Finset Term) (f : Term → ℝ) :
    normV V (unitV V f) ≤ 1 := by
  by_cases h : normV V f = 0
  · have : normV V (unitV V f) = 0 := normV_zero_fun (unitV_zero h)
    rw [this]; norm_num
  · have : normV V (unitV V f) = 1 := by
      unfold normV
      rw [dotV_unitV_self h, Real.sqrt_one]
    rw [this]

/-- The cosine of two unit-normalized vectors is at most 1. -/
theorem dotV_unitV_le_one (V : Finset Term) (f g : Term → ℝ) :
    dotV V (unitV V f) (unitV V g) ≤ 1 := by
  have h1 := dotV_le_norm_mul_norm V (unitV V f) (unitV V g)
  have h2 := normV_unitV_le_one V f
  have h3 := normV_unitV_le_one V g
  have h4 := normV_nonneg V (unitV V f)
  have h5 := normV_nonneg V (unitV V g)
  nlinarith

theorem idf_nonneg (corpusT : List (List Term)) (t : Term) : 0 ≤ idf corpusT t := by
  unfold idf
  have hdf : (docFreq corpusT t : ℝ) ≤ (corpusT.length : ℝ) :=
    Nat.cast_le.mpr (List.length_filter_le _ _)
  have hpos : (0 : ℝ) < 1 + (docFreq corpusT t : ℝ) := by positivity
  have h1 : (1 : ℝ) ≤ (1 + corpusT.length) / (1 + docFreq corpusT t) := by
    rw [one_le_div hpos]
    linarith
  have := Real.log_nonneg h1
  linarith

theorem tfidfWeight_nonneg (corpusT : List (List Term)) (d : List Term) (t : Term) :
    0 ≤ tfidfWeight corpusT d t :=
  mul_nonneg (Nat.cast_nonneg _) (idf_nonneg _ _)

theorem tfidfWeight_nil (corpusT : List (List Term)) (t : Term) :
    tfidfWeight corpusT [] t = 0 := by
  unfold tfidfWeight
  simp

/-- The two bounds on a candidate score: every score lies in [0, 100]. -/
theorem candScore_bounds (stop : List Term) (jd : PyStr) (texts : List PyStr) (tx : PyStr) :
    0 ≤ candScore stop jd texts tx ∧ candScore stop jd texts tx ≤ 100 := by
  unfold candScore
  constructor
  · exact mul_nonneg (by norm_num)
      (dotV_nonneg (unitV_nonneg (tfidfWeight_nonneg _ _))
        (unitV_nonneg (tfidfWeight_nonneg _ _)))
  · dsimp only
    have h := dotV_unitV_le_one
      (vocabOf (tokensOf stop jd :: texts.map (tokensOf stop)))
      (tfidfWeight (tokensOf stop jd :: texts.map (tokensOf stop)) (tokensOf stop jd))
      (tfidfWeight (tokensOf stop jd :: texts.map (tokensOf stop)) (tokensOf stop tx))
    linarith

/-- A candidate with the same token list as the reference scores at least as
high as any candidate. -/
theorem candScore_le_self (stop : List Term) (jd : PyStr) (texts : List PyStr) (tx : PyStr) :
    candScore stop jd texts tx ≤ candScore stop jd texts jd := by
  unfold candScore
  apply mul_le_mul_of_nonneg_left _ (by norm_num : (0 : ℝ) ≤ 100)
  by_cases h : normV (vocabOf (tokensOf stop jd :: texts.map (tokensOf stop)))
      (tfidfWeight (tokensOf stop jd :: texts.map (tokensOf stop)) (tokensOf stop jd)) = 0
  · rw [dotV_zero_of_left (unitV_zero h), dotV_zero_of_left (unitV_zero h)]
  · rw [dotV_unitV_self h]
    exact dotV_unitV_le_one _ _ _

/-- A zero-token candidate (or reference) has score exactly 0. -/
theorem candScore_zero_of_empty (stop : List Term) (jd : PyStr) (texts : List PyStr)
    (tx : PyStr) (h : tokensOf stop jd = [] ∨ tokensOf stop tx = []) :
    candScore stop jd texts tx = 0 := by
  unfold candScore
  dsimp only
  rcases h with h | h
  · rw [h]
    have hz : normV (vocabOf ([] :: texts.map (tokensOf stop)))
        (tfidfWeight ([] :: texts.map (tokensOf stop)) []) = 0 :=
      normV_zero_fun (fun t _ => tfidfWeight_nil _ t)
    rw [dotV_zero_of_left (unitV_zero hz), mul_zero]
  · rw [h]
    have hz : normV (vocabOf (tokensOf stop jd :: texts.map (tokensOf stop)))
        (tfidfWeight (tokensOf stop jd :: texts.map (tokensOf stop)) []) = 0 :=
      normV_zero_fun (fun t _ => tfidfWeight_nil _ t)
    rw [dotV_zero_of_right (unitV_zero hz), mul_zero]

/-! ### Claims about scores -/

/-- C5: a document that is empty after cleaning and stop-word removal has an
all-zero weight vector, and in any run that produced results, a result whose
reference or own text is empty after cleaning has score exactly 0 (the cosine
against an all-zero vector is 0, not a numeric error). -/
theorem c5_empty_documents_score_zero (stop : List Term) (pe de : List Nat → Option PyStr)
    (jd : PyStr) (files : List UFile) (pasted : PyStr) :
    (∀ (corpusT : List (List Term)) (d : PyStr), tokensOf stop d = [] →
      ∀ t, tfidfWeight corpusT (tokensOf stop d) t = 0) ∧
    (∀ rs, (runPipeline stop pe de jd files pasted).outcome = Except.ok rs →
      ∀ r ∈ rs, (tokensOf stop jd = [] ∨ tokensOf stop r.text = []) → r.score = 0) := by
  constructor
  · intro corpusT d hd t
    rw [hd]
    exact tfidfWeight_nil _ t
  · intro rs h r hr hcase
    rw [runPipeline_ok_shape h] at hr
    unfold rank at hr
    rw [List.mem_insertionSort] at hr
    rcases scoreRows_mem hr with ⟨e, _, _, htext, hscore⟩
    rw [hscore]
    exact candScore_zero_of_empty _ _ _ _ (by rw [← htext]; exact hcase)

theorem c5_witness :
    tokensOf [] (strLit "!!!") = [] ∧
    candScore [] (strLit "!!!") [strLit "python developer"] (strLit "python developer") = 0 := by
  constructor
  · decide
  · exact (c5_empty_documents_score_zero [] (fun _ => none) (fun _ => none) (strLit "!!!")
      [] (strLit "python developer")).2
      (rank (scoreRows
        (candScore [] (strLit "!!!") [strLit "python developer"]) 0
        [(strLit "Pasted Resume 1", strLit "python developer")])) rfl
      ⟨strLit "Pasted Resume 1", strLit "python developer", 0,
        candScore [] (strLit "!!!") [strLit "python developer"] (strLit "python developer")⟩
      (List.mem_cons_self _ _)
      (Or.inl (by decide))

/-- C8: in every run that produced results, a result whose text is identical
to the reference text scores at least as high as every result of that run. -/
theorem c8_reference_copy_is_max (stop : List Term) (pe de : List Nat → Option PyStr)
    (jd : PyStr) (files : List UFile) (pasted : PyStr) :
    ∀ rs, (runPipeline stop pe de jd files pasted).outcome = Except.ok rs →
      ∀ r ∈ rs, r.text = jd → ∀ r2 ∈ rs, r2.score ≤ r.score := by
  intro rs h r hr hrjd r2 hr2
  rw [runPipeline_ok_shape h] at hr hr2
  unfold rank at hr hr2
  rw [List.mem_insertionSort] at hr hr2
  rcases scoreRows_mem hr with ⟨e, _, _, htext, hscore⟩
  rcases scoreRows_mem hr2 with ⟨e2, _, _, htext2, hscore2⟩
  rw [hscore, hscore2, ← htext, ← htext2, hrjd]
  exact candScore_le_self _ _ _ _

theorem c8_witness :
    candScore [] (strLit "machine learning") [strLit "machine learning"]
        (strLit "machine learning") ≤
      candScore [] (strLit "machine learning") [strLit "machine learning"]
        (strLit "machine learning") :=
  c8_reference_copy_is_max [] (fun _ => none) (fun _ => none) (strLit "machine learning")
    [] (strLit "machine learning")
    (rank (scoreRows
      (candScore [] (strLit "machine learning") [strLit "machine learning"]) 0
      [(strLit "Pasted Resume 1", strLit "machine learning")])) rfl
    ⟨strLit "Pasted Resume 1", strLit "machine learning", 0,
      candScore [] (strLit "machine learning") [strLit "machine learning"]
        (strLit "machine learning")⟩
    (List.mem_cons_self _ _) rfl
    ⟨strLit "Pasted Resume 1", strLit "machine learning", 0,
      candScore [] (strLit "machine learning") [strLit "machine learning"]
        (strLit "machine learning")⟩
    (List.mem_cons_self _ _)

/-- C9: in every run that produced results, every reported score lies in the
closed interval [0, 100]. -/
theorem c9_scores_in_range (stop : List Term) (pe de : List Nat → Option PyStr)
    (jd : PyStr) (files : List UFile) (pasted : PyStr) :
    ∀ rs, (runPipeline stop pe de jd files pasted).outcome = Except.ok rs →
      ∀ r ∈ rs, 0 ≤ r.score ∧ r.score ≤ 100 := by
  intro rs h r hr
  rw [runPipeline_ok_shape h] at hr
  unfold rank at hr
  rw [List.mem_insertionSort] at hr
  rcases scoreRows_mem hr with ⟨e, _, _, _, hscore⟩
  rw [hscore]
  exact candScore_bounds _ _ _ _

theorem c9_witness :
    0 ≤ candScore [] (strLit "data scientist") [strLit "python developer"]
        (strLit "python developer") ∧
      candScore [] (strLit "data scientist") [strLit "python developer"]
        (strLit "python developer") ≤ 100 :=
  c9_scores_in_range [] (fun _ => none) (fun _ => none) (strLit "data scientist")
    [] (strLit "python developer")
    (rank (scoreRows
      (candScore [] (strLit "data scientist") [strLit "python developer"]) 0
      [(strLit "Pasted Resume 1", strLit "python developer")])) rfl
    ⟨strLit "Pasted Resume 1", strLit "python developer", 0,
      candScore [] (strLit "data scientist") [strLit "python developer"]
        (strLit "python developer")⟩
    (List.mem_cons_self _ _)

/-! ### Sortedness and stability of the ranking -/

theorem rankedBefore_of_le {a b : ScoredResult} (hle : b.score ≤ a.score)
    (hidx : a.idx < b.idx) : RankedBefore a b := by
  rcases lt_or_eq_of_le hle with h | h
  · exact Or.inl h
  · exact Or.inr ⟨h, hidx⟩

theorem rankedBefore_trans_of {a b c : ScoredResult} (hab : RankedBefore a b)
    (hbc : RankedBefore b c) : RankedBefore a c := by
  rcases hab with h1 | ⟨h1, h2⟩ <;> rcases hbc with h3 | ⟨h3, h4⟩
  · exact Or.inl (h3.trans h1)
  · exact Or.inl (by rw [h3]; exact h1)
  · exact Or.inl (by rw [← h1]; exact h3)
  · exact Or.inr ⟨h3.trans h1, h2.trans h4⟩

/-- Inserting a row whose original position is later than every row of a
stably-sorted list keeps the list stably sorted. -/
theorem orderedInsert_pairwise_ranked {a : ScoredResult} :
    ∀ {l : List ScoredResult}, l.Pairwise RankedBefore → (∀ b ∈ l, a.idx < b.idx) →
      (List.orderedInsert (fun x y => y.score ≤ x.score) a l).Pairwise RankedBefore
  | [], _, _ => by simp
  | b :: t, hp, hidx => by
    simp only [List.orderedInsert]
    split
    · next hab =>
      refine List.pairwise_cons.mpr ⟨?_, hp⟩
      intro x hx
      have h1 : RankedBefore a b :=
        rankedBefore_of_le hab (hidx b (List.mem_cons_self _ _))
      rcases List.mem_cons.mp hx with rfl | hx
      · exact h1
      · exact rankedBefore_trans_of h1 ((List.pairwise_cons.mp hp).1 x hx)
    · next hab =>
      refine List.pairwise_cons.mpr ⟨?_, ?_⟩
      · intro x hx
        rcases (List.mem_orderedInsert _).mp hx with rfl | hx
        · exact Or.inl (lt_of_not_le hab)
        · exact (List.pairwise_cons.mp hp).1 x hx
      · exact orderedInsert_pairwise_ranked (List.pairwise_cons.mp hp).2
          (fun y hy => hidx y (List.mem_cons_of_mem _ hy))

/-- Insertion sort with the non-strict by-score comparison produces a list
that is sorted by score descending with ties in original order, whenever the
input rows appear in order of their original positions. -/
theorem insertionSort_pairwise_ranked :
    ∀ {l : List ScoredResult}, l.Pairwise (fun x y => x.idx < y.idx) →
      (List.insertionSort (fun x y => y.score ≤ x.score) l).Pairwise RankedBefore
  | [], _ => by simp
  | a :: l, hp => by
    simp only [List.insertionSort]
    apply orderedInsert_pairwise_ranked
    · exact insertionSort_pairwise_ranked (List.pairwise_cons.mp hp).2
    · intro b hb
      exact (List.pairwise_cons.mp hp).1 b ((List.mem_insertionSort _).mp hb)

theorem scoreRows_idx_le {f : PyStr → ℝ} :
    ∀ {k : Nat} {es : List (PyStr × PyStr)} {r : ScoredResult},
      r ∈ scoreRows f k es → k ≤ r.idx
  | k, [], r => by simp [scoreRows]
  | k, e :: es, r => by
    intro h
    rcases List.mem_cons.mp h with rfl | h
    · exact le_refl _
    · exact le_trans (Nat.le_succ k) (scoreRows_idx_le h)

/-- The rows built from the candidate list carry strictly increasing original
positions. -/
theorem scoreRows_pairwise_idx (f : PyStr → ℝ) :
    ∀ (k : Nat) (es : List (PyStr × PyStr)),
      (scoreRows f k es).Pairwise (fun x y => x.idx < y.idx)
  | _, [] => by simp [scoreRows]
  | k, e :: es => by
    simp only [scoreRows]
    refine List.pairwise_cons.mpr ⟨?_, scoreRows_pairwise_idx f (k + 1) es⟩
    intro y hy
    exact lt_of_lt_of_le (Nat.lt_succ_self k) (scoreRows_idx_le hy)

/-- C1: in every run that produced results, the output is sorted by score
descending with equal scores in original input order (`RankedBefore`
pairwise), and it is a permutation of the scored candidate rows. -/
theorem c1_output_sorted_and_stable (stop : List Term) (pe de : List Nat → Option PyStr)
    (jd : PyStr) (files : List UFile) (pasted : PyStr) :
    ∀ rs, (runPipeline stop pe de jd files pasted).outcome = Except.ok rs →
      rs.Pairwise RankedBefore ∧
      rs.Perm (scoreRows (candScore stop jd ((entriesOf pe de files pasted).map Prod.snd))
        0 (entriesOf pe de files pasted)) := by
  intro rs h
  rw [runPipeline_ok_shape h]
  unfold rank
  exact ⟨insertionSort_pairwise_ranked (scoreRows_pairwise_idx _ 0 _),
    List.perm_insertionSort _ _⟩

theorem c1_witness :
    (rank (scoreRows
      (candScore [] (strLit "data scientist") [strLit "python developer"]) 0
      [(strLit "Pasted Resume 1", strLit "python developer")])).Pairwise RankedBefore ∧
    (rank (scoreRows
      (candScore [] (strLit "data scientist") [strLit "python developer"]) 0
      [(strLit "Pasted Resume 1", strLit "python developer")])).Perm (scoreRows
      (candScore [] (strLit "data scientist") [strLit "python developer"]) 0
      [(strLit "Pasted Resume 1", strLit "python developer")]) :=
  c1_output_sorted_and_stable [] (fun _ => none) (fun _ => none) (strLit "data scientist")
    [] (strLit "python developer")
    (rank (scoreRows
      (candScore [] (strLit "data scientist") [strLit "python developer"]) 0
      [(strLit "Pasted Resume 1", strLit "python developer")])) rfl

end JobMatcher
